import Mathlib

/-!
Verification of the GuardianJS signal-collection-and-anchoring pipeline.

The development shallowly embeds the TypeScript sources:
* `hash.ts` (`canonicalize`, `normalizeString`, `stableHash`),
* `computeBrowserSignals.ts` (the orchestrator and its helpers),
* `sources/eme.ts` (`getEmeInfo`) and `sources/webgpu.ts` (`getWebGpuInfo`),
* `agent.ts` (`makeAgent`, `load`, `Agent.get`).

JavaScript strings are modelled through their UTF-16 code-unit sequences
(`charCodeAt`, default `Array.sort` string comparison and `String.length` all
operate on UTF-16 code units).  JavaScript numbers occurring as signal values
are identified with their decimal serialization (`JsNumber := String`); no
claim depends on float arithmetic.  Promises are modelled by the `JsOutcome`
type: a promise either resolves, rejects, or never settles.
-/

/-- A JavaScript number as it appears inside a JSON serialization: the value is
identified with its `JSON.stringify` image (e.g. `"1"`, `"2.5"`; distinct JS
numbers have distinct serializations, and `NaN`/`Infinity` serialize as
`"null"`).  No claim in this development performs arithmetic on these. -/
abbrev JsNumber := String

/-- UTF-16 code units of one character (surrogate pair for non-BMP scalars).
`Char` can never hold a lone surrogate, so this encoding is injective. -/
def charUnits (c : Char) : List Nat :=
  if c.toNat < 65536 then [c.toNat]
  else [55296 + (c.toNat - 65536) / 1024, 56320 + (c.toNat - 65536) % 1024]

/-- UTF-16 code units of a character list. -/
def listUnits : List Char → List Nat
  | [] => []
  | c :: cs => charUnits c ++ listUnits cs

/-- UTF-16 code units of a string: this is the sequence JS `charCodeAt`
enumerates, and its length is the JS `String.length`. -/
def utf16Units (s : String) : List Nat := listUnits s.data

/-- Partial inverse of the UTF-16 encoding, used to prove injectivity. -/
def decodeUtf16 : List Nat → Option (List Char)
  | [] => some []
  | u :: rest =>
    if u < 55296 ∨ 57343 < u then
      (decodeUtf16 rest).map (Char.ofNat u :: ·)
    else
      match rest with
      | [] => none
      | v :: rest₂ =>
        if 55296 ≤ u ∧ u ≤ 56319 ∧ 56320 ≤ v ∧ v ≤ 57343 then
          (decodeUtf16 rest₂).map (Char.ofNat (65536 + (u - 55296) * 1024 + (v - 56320)) :: ·)
        else none

theorem char_toNat_valid (c : Char) :
    c.toNat < 55296 ∨ (57343 < c.toNat ∧ c.toNat < 1114112) := by
  have h := c.valid
  simp only [UInt32.isValidChar, Nat.isValidChar] at h
  exact h

theorem charUnits_lt (c : Char) : ∀ u ∈ charUnits c, u < 65536 := by
  intro u hu
  have hv := char_toNat_valid c
  unfold charUnits at hu
  split at hu
  · simp at hu; omega
  · simp at hu
    have h1 : (c.toNat - 65536) / 1024 < 1024 := by omega
    have h2 : (c.toNat - 65536) % 1024 < 1024 := Nat.mod_lt _ (by norm_num)
    rcases hu with h' | h' <;> omega

theorem decodeUtf16_cons (u : Nat) (rest : List Nat) :
    decodeUtf16 (u :: rest) =
      if u < 55296 ∨ 57343 < u then
        (decodeUtf16 rest).map (Char.ofNat u :: ·)
      else
        match rest with
        | [] => none
        | v :: rest₂ =>
          if 55296 ≤ u ∧ u ≤ 56319 ∧ 56320 ≤ v ∧ v ≤ 57343 then
            (decodeUtf16 rest₂).map (Char.ofNat (65536 + (u - 55296) * 1024 + (v - 56320)) :: ·)
          else none := by
  rw [decodeUtf16.eq_def]

theorem decodeUtf16_charUnits (c : Char) (rest : List Nat) :
    decodeUtf16 (charUnits c ++ rest) = (decodeUtf16 rest).map (c :: ·) := by
  have hv := char_toNat_valid c
  by_cases hc : c.toNat < 65536
  · simp only [charUnits, if_pos hc, List.cons_append, List.nil_append, decodeUtf16_cons]
    rw [if_pos (by omega), Char.ofNat_toNat]
  · have hq : (c.toNat - 65536) / 1024 < 1024 := by omega
    have hr : (c.toNat - 65536) % 1024 < 1024 := Nat.mod_lt _ (by norm_num)
    simp only [charUnits, if_neg hc, List.cons_append, List.nil_append, decodeUtf16_cons]
    rw [if_neg (by omega), if_pos (by omega)]
    have harith : 65536 + (55296 + (c.toNat - 65536) / 1024 - 55296) * 1024 +
        (56320 + (c.toNat - 65536) % 1024 - 56320) = c.toNat := by
      have := Nat.div_add_mod (c.toNat - 65536) 1024
      omega
    rw [harith, Char.ofNat_toNat]

theorem decodeUtf16_listUnits : ∀ l : List Char, decodeUtf16 (listUnits l) = some l := by
  intro l
  induction l with
  | nil => rfl
  | cons c cs ih =>
    show decodeUtf16 (charUnits c ++ listUnits cs) = _
    rw [decodeUtf16_charUnits, ih]
    rfl

theorem utf16Units_injective {a b : String} (h : utf16Units a = utf16Units b) : a = b := by
  have ha := decodeUtf16_listUnits a.data
  have hb := decodeUtf16_listUnits b.data
  unfold utf16Units at h
  rw [h, hb] at ha
  exact String.ext (Option.some.inj ha.symm)

/-- Lexicographic comparison of code-unit sequences: this is how the default
JS `Array.prototype.sort` compares strings (`a < b` on UTF-16 units). -/
def ltUnits : List Nat → List Nat → Bool
  | _, [] => false
  | [], _ :: _ => true
  | a :: as, b :: bs => if a < b then true else if b < a then false else ltUnits as bs

theorem ltUnits_asymm : ∀ {x y : List Nat}, ltUnits x y = true → ltUnits y x = false := by
  intro x
  induction x with
  | nil => intro y h; cases y <;> simp [ltUnits] at h ⊢
  | cons a as ih =>
    intro y h
    cases y with
    | nil => simp [ltUnits] at h
    | cons b bs =>
      simp only [ltUnits] at h ⊢
      by_cases hab : a < b
      · rw [if_neg (by omega), if_pos hab]
      · rw [if_neg hab] at h
        by_cases hba : b < a
        · rw [if_pos hba] at h; exact absurd h (by simp)
        · rw [if_neg hba] at h
          rw [if_neg (by omega), if_neg (by omega)]
          exact ih h

theorem ltUnits_total_eq : ∀ {x y : List Nat},
    ltUnits x y = false → ltUnits y x = false → x = y := by
  intro x
  induction x with
  | nil => intro y h₁ _; cases y <;> simp [ltUnits] at h₁ ⊢
  | cons a as ih =>
    intro y h₁ h₂
    cases y with
    | nil => simp [ltUnits] at h₂
    | cons b bs =>
      simp only [ltUnits] at h₁ h₂
      by_cases hab : a < b
      · rw [if_pos hab] at h₁; exact absurd h₁ (by simp)
      · by_cases hba : b < a
        · rw [if_pos hba] at h₂; exact absurd h₂ (by simp)
        · rw [if_neg hab, if_neg (by omega)] at h₁
          rw [if_neg hba, if_neg (by omega)] at h₂
          have : a = b := by omega
          rw [this, ih h₁ h₂]

theorem ltUnits_trans : ∀ {x y z : List Nat},
    ltUnits x y = true → ltUnits y z = true → ltUnits x z = true := by
  intro x
  induction x with
  | nil =>
    intro y z h₁ h₂
    cases y with
    | nil => simp [ltUnits] at h₁
    | cons b bs =>
      cases z with
      | nil => simp [ltUnits] at h₂
      | cons c cs => simp [ltUnits]
  | cons a as ih =>
    intro y z h₁ h₂
    cases y with
    | nil => simp [ltUnits] at h₁
    | cons b bs =>
      cases z with
      | nil => simp [ltUnits] at h₂
      | cons c cs =>
        simp only [ltUnits] at h₁ h₂ ⊢
        by_cases hab : a < b <;> by_cases hbc : b < c
        · rw [if_pos (by omega)]
        · rw [if_neg hbc] at h₂
          by_cases hcb : c < b
          · rw [if_pos hcb] at h₂; exact absurd h₂ (by simp)
          · have : b = c := by omega
            subst this
            rw [if_pos hab]
        · rw [if_neg hab] at h₁
          by_cases hba : b < a
          · rw [if_pos hba] at h₁; exact absurd h₁ (by simp)
          · have : a = b := by omega
            subst this
            rw [if_pos hbc]
        · rw [if_neg hab] at h₁
          rw [if_neg hbc] at h₂
          by_cases hba : b < a
          · rw [if_pos hba] at h₁; exact absurd h₁ (by simp)
          · by_cases hcb : c < b
            · rw [if_pos hcb] at h₂; exact absurd h₂ (by simp)
            · rw [if_neg hba] at h₁
              rw [if_neg hcb] at h₂
              rw [if_neg (by omega), if_neg (by omega)]
              exact ih h₁ h₂

/-- JS string comparison (`a < b`) as used by `Object.keys(val).sort()`. -/
def jsLtKey (a b : String) : Bool := ltUnits (utf16Units a) (utf16Units b)

/-! ### JSON string escaping (the string serialization of `JSON.stringify`) -/

/-- Lowercase hexadecimal digit, as used by JSON `\u00xx` escapes and by
`Number.prototype.toString(16)`. -/
def hexDigitChar (n : Nat) : Char :=
  if n < 10 then Char.ofNat (48 + n) else Char.ofNat (87 + n)

/-- How `JSON.stringify` emits one character inside a quoted string. -/
def escChar (c : Char) : List Char :=
  if c = '"' then ['\\', '"']
  else if c = '\\' then ['\\', '\\']
  else if c.toNat = 8 then ['\\', 'b']
  else if c.toNat = 9 then ['\\', 't']
  else if c.toNat = 10 then ['\\', 'n']
  else if c.toNat = 12 then ['\\', 'f']
  else if c.toNat = 13 then ['\\', 'r']
  else if c.toNat < 32 then ['\\', 'u', '0', '0', hexDigitChar (c.toNat / 16), hexDigitChar (c.toNat % 16)]
  else [c]

def escList : List Char → List Char
  | [] => []
  | c :: cs => escChar c ++ escList cs

/-- `JSON.stringify` of a string value: quoted and escaped. -/
def quoteJson (s : String) : String :=
  "\"" ++ String.mk (escList s.data) ++ "\""

/-- Numeric value of a lowercase hexadecimal digit. -/
def hexVal (c : Char) : Nat := if c.toNat ≤ 57 then c.toNat - 48 else c.toNat - 87

/-- Partial inverse of `escList`, used to prove that escaping is injective. -/
def unescList : List Char → Option (List Char)
  | [] => some []
  | c :: rest =>
    if c = '\\' then
      match rest with
      | [] => none
      | e :: rest₂ =>
        if e = '"' then (unescList rest₂).map ('"' :: ·)
        else if e = '\\' then (unescList rest₂).map ('\\' :: ·)
        else if e = 'b' then (unescList rest₂).map (Char.ofNat 8 :: ·)
        else if e = 't' then (unescList rest₂).map (Char.ofNat 9 :: ·)
        else if e = 'n' then (unescList rest₂).map (Char.ofNat 10 :: ·)
        else if e = 'f' then (unescList rest₂).map (Char.ofNat 12 :: ·)
        else if e = 'r' then (unescList rest₂).map (Char.ofNat 13 :: ·)
        else if e = 'u' then
          match rest₂ with
          | '0' :: '0' :: d₁ :: d₂ :: rest₃ =>
            (unescList rest₃).map (Char.ofNat (16 * hexVal d₁ + hexVal d₂) :: ·)
          | _ => none
        else none
    else (unescList rest).map (c :: ·)

theorem hexVal_hexDigitChar {m : Nat} (h : m < 16) : hexVal (hexDigitChar m) = m := by
  interval_cases m <;> rfl

theorem hexDigitChar_ne_low {m : Nat} (h : m < 16) :
    hexDigitChar m ≠ '"' ∧ hexDigitChar m ≠ '\\' := by
  interval_cases m <;> exact ⟨by decide, by decide⟩

theorem unescList_backslash_u (d₁ d₂ : Char) (rest : List Char) :
    unescList ('\\' :: 'u' :: '0' :: '0' :: d₁ :: d₂ :: rest) =
      (unescList rest).map (Char.ofNat (16 * hexVal d₁ + hexVal d₂) :: ·) := by
  rw [unescList.eq_def]
  rfl

theorem unescList_escChar (c : Char) (rest : List Char) :
    unescList (escChar c ++ rest) = (unescList rest).map (c :: ·) := by
  by_cases h1 : c = '"'
  · subst h1
    show unescList ('\\' :: '"' :: rest) = _
    rw [unescList.eq_def]
    rfl
  by_cases h2 : c = '\\'
  · subst h2
    show unescList ('\\' :: '\\' :: rest) = _
    rw [unescList.eq_def]
    rfl
  by_cases h3 : c.toNat = 8
  · have hc : c = Char.ofNat 8 := by rw [← h3, Char.ofNat_toNat]
    simp only [escChar, if_neg h1, if_neg h2, if_pos h3, List.cons_append, List.nil_append]
    rw [hc, unescList.eq_def]
    rfl
  by_cases h4 : c.toNat = 9
  · have hc : c = Char.ofNat 9 := by rw [← h4, Char.ofNat_toNat]
    simp only [escChar, if_neg h1, if_neg h2, if_neg h3, if_pos h4, List.cons_append,
      List.nil_append]
    rw [hc, unescList.eq_def]
    rfl
  by_cases h5 : c.toNat = 10
  · have hc : c = Char.ofNat 10 := by rw [← h5, Char.ofNat_toNat]
    simp only [escChar, if_neg h1, if_neg h2, if_neg h3, if_neg h4, if_pos h5, List.cons_append,
      List.nil_append]
    rw [hc, unescList.eq_def]
    rfl
  by_cases h6 : c.toNat = 12
  · have hc : c = Char.ofNat 12 := by rw [← h6, Char.ofNat_toNat]
    simp only [escChar, if_neg h1, if_neg h2, if_neg h3, if_neg h4, if_neg h5, if_pos h6,
      List.cons_append, List.nil_append]
    rw [hc, unescList.eq_def]
    rfl
  by_cases h7 : c.toNat = 13
  · have hc : c = Char.ofNat 13 := by rw [← h7, Char.ofNat_toNat]
    simp only [escChar, if_neg h1, if_neg h2, if_neg h3, if_neg h4, if_neg h5, if_neg h6,
      if_pos h7, List.cons_append, List.nil_append]
    rw [hc, unescList.eq_def]
    rfl
  by_cases h8 : c.toNat < 32
  · have hdiv : c.toNat / 16 < 16 := by omega
    have hmod : c.toNat % 16 < 16 := Nat.mod_lt _ (by norm_num)
    simp only [escChar, if_neg h1, if_neg h2, if_neg h3, if_neg h4, if_neg h5, if_neg h6,
      if_neg h7, if_pos h8, List.cons_append, List.nil_append]
    rw [unescList_backslash_u]
    rw [hexVal_hexDigitChar hdiv, hexVal_hexDigitChar hmod]
    have harith : 16 * (c.toNat / 16) + c.toNat % 16 = c.toNat := Nat.div_add_mod _ _
    rw [harith, Char.ofNat_toNat]
  · simp only [escChar, if_neg h1, if_neg h2, if_neg h3, if_neg h4, if_neg h5, if_neg h6,
      if_neg h7, if_neg h8, List.cons_append, List.nil_append]
    rw [unescList.eq_def]
    simp only [if_neg h2]

theorem unescList_escList : ∀ l : List Char, unescList (escList l) = some l := by
  intro l
  induction l with
  | nil => rfl
  | cons c cs ih =>
    show unescList (escChar c ++ escList cs) = _
    rw [unescList_escChar, ih]
    rfl

theorem escList_injective {a b : List Char} (h : escList a = escList b) : a = b := by
  have ha := unescList_escList a
  have hb := unescList_escList b
  rw [h, hb] at ha
  exact Option.some.inj ha.symm

theorem quoteJson_injective {a b : String} (h : quoteJson a = quoteJson b) : a = b := by
  have hdata : ('"' :: (escList a.data ++ ['"'])) = ('"' :: (escList b.data ++ ['"'])) := by
    have h1 := congrArg String.data h
    simpa [quoteJson, String.data_append] using h1
  have h2 : escList a.data ++ ['"'] = escList b.data ++ ['"'] := List.cons.inj hdata |>.2
  have h3 : escList a.data = escList b.data := List.append_cancel_right h2
  exact String.ext (escList_injective h3)

/-! ### JSON values, `canonicalize` and key sorting (src `hash.ts`) -/

/-- The JSON-serializable JS values `canonicalize` operates on.  Object fields
are kept in their (JS) insertion order; `num` carries the number's
`JSON.stringify` image (see `JsNumber`). -/
inductive JsonValue where
  | null : JsonValue
  | bool (b : Bool) : JsonValue
  | num (r : JsNumber) : JsonValue
  | str (s : String) : JsonValue
  | arr (elems : List JsonValue) : JsonValue
  | obj (fields : List (String × JsonValue)) : JsonValue

/-- The key order used by `Object.keys(val).sort()` in `replacer`, lifted to
object fields. -/
def fieldLe (p q : String × JsonValue) : Prop := jsLtKey q.1 p.1 = false

instance : DecidableRel fieldLe := fun p q =>
  inferInstanceAs (Decidable (jsLtKey q.1 p.1 = false))

instance : IsTotal (String × JsonValue) fieldLe := by
  constructor
  intro p q
  by_cases h : jsLtKey q.1 p.1 = true
  · right
    exact ltUnits_asymm h
  · left
    simpa using h

instance : IsTrans (String × JsonValue) fieldLe := by
  constructor
  intro p q r h₁ h₂
  unfold fieldLe jsLtKey at h₁ h₂ ⊢
  by_cases hrp : ltUnits (utf16Units r.1) (utf16Units p.1) = true
  · by_cases hpq : ltUnits (utf16Units p.1) (utf16Units q.1) = true
    · rw [ltUnits_trans hrp hpq] at h₂
      exact absurd h₂ (by simp)
    · have hpq' : utf16Units p.1 = utf16Units q.1 :=
        ltUnits_total_eq (by simpa using hpq) h₁
      rw [hpq'] at hrp
      rw [hrp] at h₂
      exact absurd h₂ (by simp)
  · simpa using hrp

/-- `Object.keys(val).sort()` followed by re-insertion in sorted order, acting
on an association list of fields.  (JS note: when the sorted object is later
enumerated by `JSON.stringify`, integer-like keys would be enumerated in
numeric order first regardless of insertion order; the signal/anchor keys this
program hashes are all non-numeric, and every theorem below concerns only the
order-independence of the result, which holds for either enumeration rule.) -/
def sortFields (fs : List (String × JsonValue)) : List (String × JsonValue) :=
  List.insertionSort fieldLe fs

mutual
/-- The recursive effect of `JSON.stringify(value, replacer)`'s `replacer`:
every object node's fields are rewritten in sorted key order, at every nesting
level; arrays keep their element order. -/
def sortJson : JsonValue → JsonValue
  | .null => .null
  | .bool b => .bool b
  | .num r => .num r
  | .str s => .str s
  | .arr xs => .arr (sortJsonList xs)
  | .obj fs => .obj (sortFields (sortJsonFields fs))
def sortJsonList : List JsonValue → List JsonValue
  | [] => []
  | x :: xs => sortJson x :: sortJsonList xs
def sortJsonFields : List (String × JsonValue) → List (String × JsonValue)
  | [] => []
  | (k, v) :: fs => (k, sortJson v) :: sortJsonFields fs
end

mutual
/-- Plain `JSON.stringify` (no replacer): keys are emitted in field order. -/
def serializeJson : JsonValue → String
  | .null => "null"
  | .bool b => cond b "true" "false"
  | .num r => r
  | .str s => quoteJson s
  | .arr xs => "[" ++ serializeList xs ++ "]"
  | .obj fs => "\x7b" ++ serializeFields fs ++ "\x7d"
def serializeList : List JsonValue → String
  | [] => ""
  | [x] => serializeJson x
  | x :: y :: xs => serializeJson x ++ "," ++ serializeList (y :: xs)
def serializeFields : List (String × JsonValue) → String
  | [] => ""
  | [(k, v)] => quoteJson k ++ ":" ++ serializeJson v
  | (k, v) :: q :: fs => quoteJson k ++ ":" ++ serializeJson v ++ "," ++ serializeFields (q :: fs)
end

/-- `canonicalize` from `hash.ts`: `JSON.stringify(value, replacer)`, i.e. the
serialization in which every object's keys appear in sorted order,
recursively. -/
def canonicalize (value : JsonValue) : String :=
  serializeJson (sortJson value)

/-- Head-character predicate for `num` serializations: a JS number's
`JSON.stringify` image never starts with a quote character (it starts with a
digit, `-`, or the `n` of `null` for non-finite numbers). -/
def numHeadOk (r : String) : Bool :=
  match r.data.head? with
  | some c => c != '"'
  | none => true

def keysNodup : List String → Bool
  | [] => true
  | k :: ks => !(ks.contains k) && keysNodup ks

mutual
/-- Well-formedness of a value as produced by a JS runtime: object keys are
distinct at every level (a JS object cannot hold duplicate keys) and number
serializations satisfy `numHeadOk`. -/
def wfJson : JsonValue → Bool
  | .null => true
  | .bool _ => true
  | .num r => numHeadOk r
  | .str _ => true
  | .arr xs => wfJsonList xs
  | .obj fs => keysNodup (fs.map Prod.fst) && wfJsonFields fs
def wfJsonList : List JsonValue → Bool
  | [] => true
  | x :: xs => wfJson x && wfJsonList xs
def wfJsonFields : List (String × JsonValue) → Bool
  | [] => true
  | (_, v) :: fs => wfJson v && wfJsonFields fs
end

/-- Structural equality of JS values modulo object key order: the two values
agree except that, recursively, the fields of corresponding objects may be
enumerated in different orders; arrays keep their element order. -/
inductive KeyPermEq : JsonValue → JsonValue → Prop where
  | null : KeyPermEq .null .null
  | bool (b : Bool) : KeyPermEq (.bool b) (.bool b)
  | num (r : JsNumber) : KeyPermEq (.num r) (.num r)
  | str (s : String) : KeyPermEq (.str s) (.str s)
  | arrNil : KeyPermEq (.arr []) (.arr [])
  | arrCons {x y : JsonValue} {xs ys : List JsonValue} :
      KeyPermEq x y → KeyPermEq (.arr xs) (.arr ys) →
      KeyPermEq (.arr (x :: xs)) (.arr (y :: ys))
  | objNil : KeyPermEq (.obj []) (.obj [])
  | objCons {k : String} {v w : JsonValue} {fs gs : List (String × JsonValue)} :
      KeyPermEq v w → KeyPermEq (.obj fs) (.obj gs) →
      KeyPermEq (.obj ((k, v) :: fs)) (.obj ((k, w) :: gs))
  | objPerm {fs gs hs : List (String × JsonValue)} :
      KeyPermEq (.obj fs) (.obj gs) → List.Perm gs hs → KeyPermEq (.obj fs) (.obj hs)

/-! ### Key-order independence of `canonicalize` -/

/-- Strict variant of `fieldLe` used to show sorted field lists are unique. -/
def fieldLt (p q : String × JsonValue) : Prop := fieldLe p q ∧ p.1 ≠ q.1

instance : IsAntisymm (String × JsonValue) fieldLt := by
  constructor
  intro p q h₁ h₂
  have hk : p.1 = q.1 := utf16Units_injective (ltUnits_total_eq h₂.1 h₁.1)
  exact absurd hk h₁.2

theorem keysNodup_iff (ks : List String) : keysNodup ks = true ↔ ks.Nodup := by
  induction ks with
  | nil => simp [keysNodup]
  | cons k ks ih =>
    simp only [keysNodup, Bool.and_eq_true, Bool.not_eq_true', List.nodup_cons, ih]
    constructor
    · rintro ⟨hc, hn⟩
      refine ⟨fun hm => ?_, hn⟩
      have ht : ks.contains k = true := List.elem_iff.mpr hm
      rw [ht] at hc
      exact absurd hc (by simp)
    · rintro ⟨hm, hn⟩
      refine ⟨?_, hn⟩
      by_contra hc
      simp only [Bool.not_eq_false] at hc
      exact hm (List.elem_iff.mp hc)

theorem wfJsonFields_mem_iff (fs : List (String × JsonValue)) :
    wfJsonFields fs = true ↔ ∀ p ∈ fs, wfJson p.2 = true := by
  induction fs with
  | nil => simp [wfJsonFields]
  | cons p fs ih =>
    obtain ⟨k, v⟩ := p
    simp only [wfJsonFields, Bool.and_eq_true, ih, List.forall_mem_cons]

theorem sortJsonFields_eq_map (l : List (String × JsonValue)) :
    sortJsonFields l = l.map (fun p => (p.1, sortJson p.2)) := by
  induction l with
  | nil => rfl
  | cons p fs ih =>
    obtain ⟨k, v⟩ := p
    show (k, sortJson v) :: sortJsonFields fs = _
    rw [ih]
    rfl

theorem map_fst_sortJsonFields (l : List (String × JsonValue)) :
    (sortJsonFields l).map Prod.fst = l.map Prod.fst := by
  rw [sortJsonFields_eq_map, List.map_map]
  rfl

/-- Sorting is insensitive to the input enumeration order of the fields, as
long as the keys are distinct (which is automatic for JS objects). -/
theorem sortFields_eq_of_perm {l₁ l₂ : List (String × JsonValue)}
    (hperm : l₁.Perm l₂) (hnodup : (l₂.map Prod.fst).Nodup) :
    sortFields l₁ = sortFields l₂ := by
  have hp₁ : (sortFields l₁).Perm l₁ := List.perm_insertionSort fieldLe l₁
  have hp₂ : (sortFields l₂).Perm l₂ := List.perm_insertionSort fieldLe l₂
  have hp : (sortFields l₁).Perm (sortFields l₂) := hp₁.trans (hperm.trans hp₂.symm)
  have hnodup₁ : (l₁.map Prod.fst).Nodup := ((hperm.map Prod.fst).nodup_iff).mpr hnodup
  have hs₁ : List.Sorted fieldLe (sortFields l₁) := List.sorted_insertionSort fieldLe l₁
  have hs₂ : List.Sorted fieldLe (sortFields l₂) := List.sorted_insertionSort fieldLe l₂
  have hne₁ : List.Pairwise (fun p q : String × JsonValue => p.1 ≠ q.1) (sortFields l₁) := by
    have : ((sortFields l₁).map Prod.fst).Nodup := ((hp₁.map Prod.fst).nodup_iff).mpr hnodup₁
    exact List.pairwise_map.mp this
  have hne₂ : List.Pairwise (fun p q : String × JsonValue => p.1 ≠ q.1) (sortFields l₂) := by
    have : ((sortFields l₂).map Prod.fst).Nodup := ((hp₂.map Prod.fst).nodup_iff).mpr hnodup
    exact List.pairwise_map.mp this
  exact List.eq_of_perm_of_sorted (r := fieldLt) hp (hs₁.and hne₁) (hs₂.and hne₂)

theorem wfJson_arr (xs : List JsonValue) : wfJson (.arr xs) = wfJsonList xs := rfl

theorem wfJson_obj (fs : List (String × JsonValue)) :
    wfJson (.obj fs) = (keysNodup (fs.map Prod.fst) && wfJsonFields fs) := rfl

theorem sortJson_arr (xs : List JsonValue) : sortJson (.arr xs) = .arr (sortJsonList xs) := rfl

theorem sortJson_obj (fs : List (String × JsonValue)) :
    sortJson (.obj fs) = .obj (sortFields (sortJsonFields fs)) := rfl

/-- Two JS values that are structurally equal modulo object key order sort to
the same canonical value. -/
theorem sortJson_eq_of_keyPermEq {a b : JsonValue} (h : KeyPermEq a b) :
    wfJson a = true → wfJson b = true → sortJson a = sortJson b := by
  induction h with
  | null => intro _ _; rfl
  | bool b => intro _ _; rfl
  | num r => intro _ _; rfl
  | str s => intro _ _; rfl
  | arrNil => intro _ _; rfl
  | objNil => intro _ _; rfl
  | arrCons hxy hxs ih₁ ih₂ =>
    intro ha hb
    rw [wfJson_arr] at ha hb
    simp only [wfJsonList, Bool.and_eq_true] at ha hb
    have e₁ := ih₁ ha.1 hb.1
    have e₂ := ih₂ (by rw [wfJson_arr]; exact ha.2) (by rw [wfJson_arr]; exact hb.2)
    rw [sortJson_arr, sortJson_arr] at e₂ ⊢
    show JsonValue.arr (sortJson _ :: sortJsonList _) = .arr (sortJson _ :: sortJsonList _)
    rw [e₁, JsonValue.arr.injEq] at *
    rw [e₂]
  | objCons hvw hfg ih₁ ih₂ =>
    intro ha hb
    rw [wfJson_obj] at ha hb
    simp only [List.map_cons, keysNodup, wfJsonFields, Bool.and_eq_true] at ha hb
    have e₁ := ih₁ ha.2.1 hb.2.1
    have e₂ := ih₂ (by rw [wfJson_obj, Bool.and_eq_true]; exact ⟨ha.1.2, ha.2.2⟩)
      (by rw [wfJson_obj, Bool.and_eq_true]; exact ⟨hb.1.2, hb.2.2⟩)
    rw [sortJson_obj, sortJson_obj] at e₂ ⊢
    rw [JsonValue.obj.injEq] at e₂ ⊢
    show List.insertionSort fieldLe ((_, sortJson _) :: sortJsonFields _) =
      List.insertionSort fieldLe ((_, sortJson _) :: sortJsonFields _)
    show List.orderedInsert fieldLe _ (List.insertionSort fieldLe (sortJsonFields _)) =
      List.orderedInsert fieldLe _ (List.insertionSort fieldLe (sortJsonFields _))
    rw [e₁]
    show List.orderedInsert fieldLe _ (sortFields (sortJsonFields _)) =
      List.orderedInsert fieldLe _ (sortFields (sortJsonFields _))
    rw [e₂]
  | objPerm hfg hperm ih =>
    rename_i fs gs hs
    intro ha hc
    rw [wfJson_obj, Bool.and_eq_true, keysNodup_iff, wfJsonFields_mem_iff] at hc
    have hcn : (hs.map Prod.fst).Nodup := hc.1
    have hb : wfJson (.obj gs) = true := by
      rw [wfJson_obj, Bool.and_eq_true, keysNodup_iff, wfJsonFields_mem_iff]
      refine ⟨((hperm.map Prod.fst).nodup_iff).mpr hcn, fun p hp => hc.2 p (hperm.mem_iff.mp hp)⟩
    have e := ih ha hb
    rw [sortJson_obj, sortJson_obj] at e ⊢
    rw [JsonValue.obj.injEq] at e ⊢
    rw [e]
    apply sortFields_eq_of_perm
    · rw [sortJsonFields_eq_map, sortJsonFields_eq_map]
      exact hperm.map _
    · rw [map_fst_sortJsonFields]
      exact hcn

/-! ### `stableHash` (src `hash.ts`) -/

/-- `ToUint32`: JS bitwise operators view their operands and results as 32-bit
integers; we track the unsigned representative. -/
def u32 (n : Nat) : Nat := n % 4294967296

/-- `Math.imul` on the unsigned-32 view. -/
def imul32 (a b : Nat) : Nat := u32 (a * b)

/-- `^` (32-bit xor) on the unsigned-32 view. -/
def xor32 (a b : Nat) : Nat := u32 (Nat.xor a b)

/-- The per-character mixing loop of `stableHash`:
`h1 = Math.imul(h1 ^ ch, 2654435761); h2 = Math.imul(h2 ^ ch, 1597334677)`
over the UTF-16 code units of the input (`charCodeAt`). -/
def hashFold : List Nat → Nat → Nat → Nat × Nat
  | [], h1, h2 => (h1, h2)
  | ch :: rest, h1, h2 =>
    hashFold rest (imul32 (xor32 h1 ch) 2654435761) (imul32 (xor32 h2 ch) 1597334677)

/-- Little-endian hexadecimal digits, structurally recursive on a fuel
argument so that it reduces inside the kernel; `hexDigitsRev n` calls it with
fuel `n`, which always suffices since `n / 16 < n` for `n > 0`. -/
def hexDigitsRevAux : Nat → Nat → List Char
  | _, 0 => []
  | 0, _ + 1 => []
  | fuel + 1, n + 1 => hexDigitChar ((n + 1) % 16) :: hexDigitsRevAux fuel ((n + 1) / 16)

/-- Little-endian hexadecimal digits of `n` (empty for `0`). -/
def hexDigitsRev (n : Nat) : List Char := hexDigitsRevAux n n

/-- `Number.prototype.toString(16)` for naturals. -/
def natToHex (n : Nat) : String :=
  match hexDigitsRev n with
  | [] => "0"
  | ds => String.mk ds.reverse

/-- `(h >>> 0).toString(16).padStart(8, '0')`. -/
def hex8 (n : Nat) : String :=
  let s := natToHex n
  if s.length < 8 then String.mk (List.replicate (8 - s.length) '0') ++ s else s

/-- The two-lane mixing digest of `stableHash` applied to an already-serialized
string: seeds both lanes with the string length, folds every UTF-16 code unit
in, applies the final avalanche mix, and emits both lanes as 8 hex digits. -/
def hashDigest (json : String) : String :=
  let units := utf16Units json
  let h1a := xor32 3735928559 units.length
  let h2a := xor32 1103547991 units.length
  let p := hashFold units h1a h2a
  let h1 := xor32 (imul32 (xor32 p.1 (p.1 >>> 16)) 2246822507)
    (imul32 (xor32 p.2 (p.2 >>> 13)) 3266489909)
  let h2 := xor32 (imul32 (xor32 p.2 (p.2 >>> 16)) 2246822507)
    (imul32 (xor32 h1 (h1 >>> 13)) 3266489909)
  hex8 h1 ++ hex8 h2

/-- `stableHash` from `hash.ts`: strings are hashed directly, any other value
is canonicalized first. -/
def stableHash (value : JsonValue) : String :=
  hashDigest (match value with
    | .str s => s
    | v => canonicalize v)

/-! ### The 16-lowercase-hex shape of every `stableHash` output -/

def isHexLowerChar (c : Char) : Bool :=
  ('0' ≤ c && c ≤ '9') || ('a' ≤ c && c ≤ 'f')

/-- A syntactically valid identifier: exactly 16 lowercase hex characters. -/
def isHex16 (s : String) : Bool :=
  s.length == 16 && s.data.all isHexLowerChar

theorem u32_lt (n : Nat) : u32 n < 4294967296 := Nat.mod_lt _ (by norm_num)

theorem isHexLowerChar_hexDigitChar {m : Nat} (h : m < 16) :
    isHexLowerChar (hexDigitChar m) = true := by
  interval_cases m <;> rfl

theorem hexDigitsRevAux_length :
    ∀ (fuel : Nat) {k n : Nat}, n < 16 ^ k → (hexDigitsRevAux fuel n).length ≤ k := by
  intro fuel
  induction fuel with
  | zero =>
    intro k n _
    match n with
    | 0 => simp [hexDigitsRevAux]
    | m + 1 => simp [hexDigitsRevAux]
  | succ fuel ih =>
    intro k n h
    match n with
    | 0 => simp [hexDigitsRevAux]
    | m + 1 =>
      match k with
      | 0 => omega
      | j + 1 =>
        rw [hexDigitsRevAux]
        have hdiv : (m + 1) / 16 < 16 ^ j := by
          rw [Nat.div_lt_iff_lt_mul (by norm_num)]
          rw [pow_succ] at h
          exact h
        simpa using Nat.succ_le_succ (ih hdiv)

theorem hexDigitsRev_length {k n : Nat} (h : n < 16 ^ k) : (hexDigitsRev n).length ≤ k :=
  hexDigitsRevAux_length n h

theorem hexDigitsRevAux_chars :
    ∀ (fuel : Nat) {n : Nat}, ∀ c ∈ hexDigitsRevAux fuel n, isHexLowerChar c = true := by
  intro fuel
  induction fuel with
  | zero =>
    intro n c hc
    match n with
    | 0 => simp [hexDigitsRevAux] at hc
    | m + 1 => simp [hexDigitsRevAux] at hc
  | succ fuel ih =>
    intro n c hc
    match n with
    | 0 => simp [hexDigitsRevAux] at hc
    | m + 1 =>
      rw [hexDigitsRevAux] at hc
      rcases List.mem_cons.mp hc with h | h
      · rw [h]
        exact isHexLowerChar_hexDigitChar (Nat.mod_lt _ (by norm_num))
      · exact ih c h

theorem hexDigitsRev_chars (n : Nat) : ∀ c ∈ hexDigitsRev n, isHexLowerChar c = true :=
  hexDigitsRevAux_chars n

theorem natToHex_chars (n : Nat) : ∀ c ∈ (natToHex n).data, isHexLowerChar c = true := by
  unfold natToHex
  match hds : hexDigitsRev n with
  | [] => intro c hc; simp at hc; rw [hc]; rfl
  | d :: ds =>
    intro c hc
    simp only [String.data] at hc
    rw [← hds] at hc
    exact hexDigitsRev_chars n c (List.mem_reverse.mp hc)

theorem natToHex_length {n : Nat} (h : n < 4294967296) : (natToHex n).length ≤ 8 := by
  have h16 : n < 16 ^ 8 := by norm_num at h ⊢; omega
  have hlen := hexDigitsRev_length h16
  unfold natToHex
  match hds : hexDigitsRev n with
  | [] => decide
  | d :: ds =>
    rw [hds] at hlen
    show (d :: ds).reverse.length ≤ 8
    simpa using hlen

theorem hex8_length {n : Nat} (h : n < 4294967296) : (hex8 n).length = 8 := by
  have hle := natToHex_length h
  unfold hex8
  by_cases hlt : (natToHex n).length < 8
  · rw [if_pos hlt]
    show (String.mk _ ++ _).length = 8
    rw [String.length_append]
    show (List.replicate (8 - (natToHex n).length) '0').length + _ = 8
    rw [List.length_replicate]
    omega
  · rw [if_neg hlt]
    omega

theorem hex8_chars (n : Nat) : ∀ c ∈ (hex8 n).data, isHexLowerChar c = true := by
  unfold hex8
  by_cases hlt : (natToHex n).length < 8
  · rw [if_pos hlt]
    intro c hc
    rw [String.data_append] at hc
    rcases List.mem_append.mp hc with h | h
    · have := List.eq_of_mem_replicate (show c ∈ List.replicate _ '0' from h)
      rw [this]
      rfl
    · exact natToHex_chars n c h
  · rw [if_neg hlt]
    exact natToHex_chars n

theorem isHex16_hashDigest (s : String) : isHex16 (hashDigest s) = true := by
  unfold hashDigest isHex16
  set p := hashFold (utf16Units s) (xor32 3735928559 (utf16Units s).length)
    (xor32 1103547991 (utf16Units s).length)
  set h1 := xor32 (imul32 (xor32 p.1 (p.1 >>> 16)) 2246822507)
    (imul32 (xor32 p.2 (p.2 >>> 13)) 3266489909)
  set h2 := xor32 (imul32 (xor32 p.2 (p.2 >>> 16)) 2246822507)
    (imul32 (xor32 h1 (h1 >>> 13)) 3266489909)
  have hb1 : h1 < 4294967296 := u32_lt _
  have hb2 : h2 < 4294967296 := u32_lt _
  rw [Bool.and_eq_true]
  constructor
  · rw [String.length_append, hex8_length hb1, hex8_length hb2]
    rfl
  · rw [List.all_eq_true]
    intro c hc
    rw [String.data_append] at hc
    rcases List.mem_append.mp hc with h | h
    · exact hex8_chars _ c h
    · exact hex8_chars _ c h

/-- Every value `stableHash` can return is a 16-character lowercase
hexadecimal string. -/
theorem isHex16_stableHash (v : JsonValue) : isHex16 (stableHash v) = true := by
  unfold stableHash
  exact isHex16_hashDigest _

/-! ### Hash congruence along canonicalization -/

theorem canonicalize_str (s : String) : canonicalize (.str s) = quoteJson s := rfl

theorem canonicalize_num (r : JsNumber) : canonicalize (.num r) = r := rfl

theorem quoteJson_head (s : String) : (quoteJson s).data.head? = some '"' := by
  simp [quoteJson, String.data_append]

theorem serializeJson_arr (xs : List JsonValue) :
    serializeJson (.arr xs) = "[" ++ serializeList xs ++ "]" := rfl

theorem serializeJson_obj (fs : List (String × JsonValue)) :
    serializeJson (.obj fs) = "\x7b" ++ serializeFields fs ++ "\x7d" := rfl

theorem canonicalize_head_of_ne_str {v : JsonValue} (hwf : wfJson v = true)
    (h : ∀ s, v ≠ .str s) : (canonicalize v).data.head? ≠ some '"' := by
  match v with
  | .null => decide
  | .bool true => decide
  | .bool false => decide
  | .num r =>
    rw [canonicalize_num]
    have hok : numHeadOk r = true := hwf
    unfold numHeadOk at hok
    match hh : r.data.head? with
    | none => simp
    | some c =>
      rw [hh] at hok
      simp only [bne_iff_ne, ne_eq] at hok
      simp [hok]
  | .str s => exact absurd rfl (h s)
  | .arr xs =>
    show (serializeJson (sortJson (.arr xs))).data.head? ≠ some '"'
    rw [sortJson_arr, serializeJson_arr]
    simp [String.data_append]
  | .obj fs =>
    show (serializeJson (sortJson (.obj fs))).data.head? ≠ some '"'
    rw [sortJson_obj, serializeJson_obj]
    simp [String.data_append]

theorem stableHash_of_ne_str {v : JsonValue} (h : ∀ s, v ≠ .str s) :
    stableHash v = hashDigest (canonicalize v) := by
  match v with
  | .null => rfl
  | .bool b => rfl
  | .num r => rfl
  | .str s => exact absurd rfl (h s)
  | .arr xs => rfl
  | .obj fs => rfl

theorem stableHash_congr {a b : JsonValue} (ha : wfJson a = true) (hb : wfJson b = true)
    (h : canonicalize a = canonicalize b) : stableHash a = stableHash b := by
  by_cases hA : ∃ s, a = .str s
  · obtain ⟨sa, rfl⟩ := hA
    by_cases hB : ∃ s, b = .str s
    · obtain ⟨sb, rfl⟩ := hB
      rw [canonicalize_str, canonicalize_str] at h
      rw [quoteJson_injective h]
    · push_neg at hB
      rw [canonicalize_str] at h
      exact absurd (h ▸ quoteJson_head sa) (canonicalize_head_of_ne_str hb hB)
  · push_neg at hA
    by_cases hB : ∃ s, b = .str s
    · obtain ⟨sb, rfl⟩ := hB
      rw [canonicalize_str] at h
      exact absurd (h.symm ▸ quoteJson_head sb) (canonicalize_head_of_ne_str ha hA)
    · push_neg at hB
      rw [stableHash_of_ne_str hA, stableHash_of_ne_str hB, h]

/-- C1: for every two well-formed JS values that are structurally equal but
enumerate their object keys in different orders (recursively, at every nesting
level, with arrays keeping their element order), `canonicalize` produces
identical strings; and for all inputs `a`, `b` whose canonicalizations are
equal, `stableHash a = stableHash b`. -/
theorem canonicalize_keyOrder_and_stableHash_congruence
    (a b : JsonValue) (ha : wfJson a = true) (hb : wfJson b = true) :
    (KeyPermEq a b → canonicalize a = canonicalize b) ∧
    (canonicalize a = canonicalize b → stableHash a = stableHash b) := by
  constructor
  · intro h
    exact congrArg serializeJson (sortJson_eq_of_keyPermEq h ha hb)
  · exact stableHash_congr ha hb

/-- Witness for C1 at the spec's own example: `{a:1,b:2}` versus `{b:2,a:1}`
canonicalize identically and hash identically. -/
theorem canonicalize_keyOrder_witness :
    canonicalize (JsonValue.obj [("a", .num "1"), ("b", .num "2")]) =
      canonicalize (JsonValue.obj [("b", .num "2"), ("a", .num "1")]) ∧
    stableHash (JsonValue.obj [("a", .num "1"), ("b", .num "2")]) =
      stableHash (JsonValue.obj [("b", .num "2"), ("a", .num "1")]) := by
  have h := canonicalize_keyOrder_and_stableHash_congruence
    (.obj [("a", .num "1"), ("b", .num "2")]) (.obj [("b", .num "2"), ("a", .num "1")])
    (by decide) (by decide)
  have hperm : KeyPermEq (.obj [("a", .num "1"), ("b", .num "2")])
      (.obj [("b", .num "2"), ("a", .num "1")]) := by
    refine .objPerm (.objCons (.num "1") (.objCons (.num "2") .objNil)) ?_
    exact List.Perm.swap _ _ _
  exact ⟨h.1 hperm, h.2 (h.1 hperm)⟩

/-! ### `normalizeString` (src `hash.ts`) -/

/-- The JS `String.prototype.trim` whitespace set (WhiteSpace ∪ LineTerminator
from the ECMAScript spec). -/
def isJsWhitespace (c : Char) : Bool :=
  let n := c.toNat
  n == 9 || n == 10 || n == 11 || n == 12 || n == 13 || n == 32 ||
  n == 160 || n == 5760 || (8192 ≤ n && n ≤ 8202) || n == 8232 ||
  n == 8233 || n == 8239 || n == 8287 || n == 12288 || n == 65279

/-- `String.prototype.trim`. -/
def jsTrim (s : String) : String :=
  String.mk (((s.data.dropWhile isJsWhitespace).reverse.dropWhile isJsWhitespace).reverse)

/-- `String.prototype.toLowerCase`, modelled on the ASCII range (the
identifiers this program normalizes — GPU vendor/renderer strings — are
ASCII; JS additionally lowercases non-ASCII letters, which no theorem below
depends on). -/
def jsLowerChar (c : Char) : Char :=
  if 'A' ≤ c ∧ c ≤ 'Z' then Char.ofNat (c.toNat + 32) else c

def jsToLowerCase (s : String) : String :=
  String.mk (s.data.map jsLowerChar)

/-- `normalizeString` from `hash.ts`: `null`/`undefined`/`""` (all falsy)
collapse to `undefined`; otherwise trim, lower-case, and collapse an empty
result to `undefined`. -/
def normalizeString (input : Option String) : Option String :=
  match input with
  | none => none
  | some s =>
    if s = "" then none
    else
      let trimmed := jsToLowerCase (jsTrim s)
      if trimmed = "" then none else some trimmed

theorem dropWhile_eq_nil_of_all {p : Char → Bool} :
    ∀ {l : List Char}, (∀ c ∈ l, p c = true) → l.dropWhile p = [] := by
  intro l h
  induction l with
  | nil => rfl
  | cons c cs ih =>
    rw [List.dropWhile_cons, if_pos (h c (List.mem_cons_self c cs))]
    exact ih fun d hd => h d (List.mem_cons_of_mem c hd)

/-- C9: `normalizeString` trims surrounding whitespace and lower-cases its
input, and collapses empty results to the absent marker:
`normalizeString "  Apple Inc.  " = "apple inc."`, while `""`,
`null`/`undefined` and whitespace-only input all yield `undefined`. -/
theorem normalizeString_spec :
    normalizeString (some "  Apple Inc.  ") = some "apple inc." ∧
    normalizeString (some "") = none ∧
    normalizeString none = none ∧
    ∀ s : String, (∀ c ∈ s.data, isJsWhitespace c = true) → normalizeString (some s) = none := by
  refine ⟨by decide, rfl, rfl, ?_⟩
  intro s h
  by_cases hs : s = ""
  · simp [normalizeString, hs]
  · have htrim : jsTrim s = "" := by
      unfold jsTrim
      rw [dropWhile_eq_nil_of_all h]
      rfl
    simp [normalizeString, hs, htrim, jsToLowerCase]

/-- Witness for C9's whitespace-only clause at the concrete input `"  "`. -/
theorem normalizeString_spec_witness : normalizeString (some "  ") = none :=
  normalizeString_spec.2.2.2 "  " (by decide)

/-! ### Promises, host environments and the signal sources -/

/-- Outcome of a JS promise (or a computation that may throw): it resolves
with a value, it rejects/throws, or it never settles. -/
inductive JsOutcome (α : Type) where
  | ok (a : α) : JsOutcome α
  | err : JsOutcome α
  | hang : JsOutcome α
deriving DecidableEq

/-- `await`: a rejected or never-settling promise makes the awaiting
computation reject resp. never settle. -/
def JsOutcome.bind {α β : Type} : JsOutcome α → (α → JsOutcome β) → JsOutcome β
  | .ok a, f => f a
  | .err, _ => .err
  | .hang, _ => .hang

def JsOutcome.isOk {α : Type} : JsOutcome α → Bool
  | .ok _ => true
  | _ => false

/-- `EmeInfo` from `sources/eme.ts`: `{ widevineSupported?: boolean }`;
`⟨none⟩` is the `{}` "detection unavailable" value. -/
structure EmeInfo where
  widevineSupported : Option Bool
deriving DecidableEq

/-- The host capabilities `getEmeInfo` touches, each as fallible as the
corresponding JS access. -/
structure EmeHost where
  /-- Outcome of the Permissions Policy gate (eme.ts lines 66-74):
  `ok true` means a callable `allowsFeature` returned `=== false` for
  `"encrypted-media"`; `ok false` means the gate passed or was absent;
  `error` means some access in that block threw (swallowed by `catch {}`). -/
  policyForbidden : Except Unit Bool
  /-- Outcome of the secure-context check (lines 76-81): `ok true` means
  `isSecureContext` is the boolean `false`; `error` means the access threw. -/
  insecureContext : Except Unit Bool
  /-- Outcome of reaching `navigator.requestMediaKeySystemAccess` (lines
  83-85): `ok true` when it is callable, `ok false` when absent or not a
  function, `error` when the `navigator` access itself threw. -/
  requestFnAvailable : Except Unit Bool
  /-- The `requestMediaKeySystemAccess(keySystem, config)` call (line 95):
  resolving means Widevine access was granted, rejecting means it was
  refused, or it may never settle. -/
  request : JsOutcome Unit

/-- `getEmeInfo` from `sources/eme.ts`: detects Widevine EME support.
Returns `{widevineSupported: b}` when the probe gives a definitive answer
and `{}` otherwise; every throw is caught (inner faults by `catch {}`
continue, outer faults return `{}`). -/
def getEmeInfo (h : EmeHost) : JsOutcome EmeInfo :=
  match h.policyForbidden with
  | .ok true => .ok ⟨none⟩
  | _ =>
    match h.insecureContext with
    | .ok true => .ok ⟨none⟩
    | _ =>
      match h.requestFnAvailable with
      | .error _ => .ok ⟨none⟩
      | .ok false => .ok ⟨none⟩
      | .ok true =>
        match h.request with
        | .ok _ => .ok ⟨some true⟩
        | .err => .ok ⟨some false⟩
        | .hang => .hang

/-- `WebGpuInfo` from `sources/webgpu.ts`; `⟨false, none, none, none, none⟩`
is the `{supported: false}` "not supported / failed" value. -/
structure WebGpuInfo where
  supported : Bool
  isFallbackAdapter : Option Bool
  vendor : Option String
  architecture : Option String
  device : Option String
deriving DecidableEq

/-- `adapter.adapterInfo` fields as read by `getWebGpuInfo` (each one is
stored only when it is a string). -/
structure AdapterProps where
  isFallbackAdapter : Bool
  vendor : Option String
  architecture : Option String
  device : Option String
deriving DecidableEq

/-- Result of `gpu.requestAdapter()`: a null adapter, or an adapter whose
property reads may themselves throw. -/
inductive AdapterOutcome where
  | nullAdapter : AdapterOutcome
  | got (props : Except Unit AdapterProps) : AdapterOutcome

structure WebGpuHost where
  /-- Reaching a callable `navigator.gpu.requestAdapter` (webgpu.ts lines
  67-71): `ok false` when `gpu` is absent or `requestAdapter` is not a
  function; `error` when the access threw. -/
  gpuAccess : Except Unit Bool
  /-- The awaited `gpu.requestAdapter()` call (line 73). -/
  adapter : JsOutcome AdapterOutcome

/-- `getWebGpuInfo` from `sources/webgpu.ts`: resolves to
`{supported: false}` on any internal failure, `{supported: true,
isFallbackAdapter: true}` for a null adapter, and the adapter info
otherwise. -/
def getWebGpuInfo (h : WebGpuHost) : JsOutcome WebGpuInfo :=
  match h.gpuAccess with
  | .error _ => .ok ⟨false, none, none, none, none⟩
  | .ok false => .ok ⟨false, none, none, none, none⟩
  | .ok true =>
    match h.adapter with
    | .err => .ok ⟨false, none, none, none, none⟩
    | .hang => .hang
    | .ok .nullAdapter => .ok ⟨true, some true, none, none, none⟩
    | .ok (.got (.error _)) => .ok ⟨false, none, none, none, none⟩
    | .ok (.got (.ok p)) => .ok ⟨true, some p.isFallbackAdapter, p.vendor, p.architecture, p.device⟩

/-! ### The signal bag and the orchestrator (src `computeBrowserSignals.ts`) -/

/-- The payload of `getWebGlBasics` when it succeeds (`sources/webgl.ts` is a
black-box source external to this core: only its result type, as consumed at
`computeBrowserSignals.ts` lines 129-139, matters here; on failure the source
returns a numeric status code instead). -/
structure WebGlBasicsPayload where
  version : Option String
  vendor : Option String
  renderer : Option String
  vendorUnmasked : Option String
  rendererUnmasked : Option String
  shadingLanguageVersion : Option String
deriving DecidableEq

/-- The payload of `getWebGlExtensions` when it succeeds; only its
`extensions` field (`string[] | null`, `null` collapsed by `?? undefined`) is
consumed by the orchestrator, the remaining fields of the black-box payload
are not read here. -/
structure WebGlExtensionsPayload where
  extensions : Option (List String)
deriving DecidableEq

/-- The `webgl` record assembled at `computeBrowserSignals.ts` lines 130-138. -/
structure WebGlInfo where
  version : Option String
  vendor : Option String
  renderer : Option String
  vendorUnmasked : Option String
  rendererUnmasked : Option String
  shadingLanguageVersion : Option String
  extensions : Option (List String)
deriving DecidableEq

instance {e a : Type} [DecidableEq e] [DecidableEq a] : DecidableEq (Except e a) := fun x y =>
  match x, y with
  | .ok u, .ok v =>
    if h : u = v then isTrue (by rw [h]) else isFalse fun hc => h (Except.ok.inj hc)
  | .error u, .error v =>
    if h : u = v then isTrue (by rw [h]) else isFalse fun hc => h (Except.error.inj hc)
  | .ok _, .error _ => isFalse fun hc => Except.noConfusion hc
  | .error _, .ok _ => isFalse fun hc => Except.noConfusion hc

/-- Modelled from the spec: `sources/audio.ts` is not under `src/`.  Per
§4.4 of the spec and the `BrowserSignals.audioFingerprint` type, the audio
source returns a materialized number, a zero-argument function returning a
promise of a number (the lazy thunk; its promise resolves or rejects), or the
"unknown" value. -/
inductive AudioField where
  | materialized (x : JsNumber) : AudioField
  | thunk (p : Except Unit JsNumber) : AudioField
  | undef : AudioField
deriving DecidableEq

/-- The name→value record produced by `getMathFingerprint` (`sources/math.ts`);
the floating-point values are opaque host observations here. -/
abbrev MathFingerprint := List (String × JsNumber)

/-- `PerformanceTimingInfo` from `types.ts`. -/
structure PerformanceTimingInfo where
  precision : JsNumber
  baseline : JsNumber
deriving DecidableEq

/-- The `navigator` properties the orchestrator reads; a `none` field models
an absent or non-conforming (wrong-typed) property. -/
structure NavInfo where
  userAgent : Option String
  hardwareConcurrency : Option JsNumber
  deviceMemory : Option JsNumber
deriving DecidableEq

/-- The `window` properties `getPerformanceTiming` reads: `none` when
`window.performance.now` is unavailable, otherwise the precision/baseline
pair measured by its 50000-iteration loop (the float arithmetic of the loop
is an opaque host observation). -/
structure WindowInfo where
  perfTiming : Option PerformanceTimingInfo
deriving DecidableEq

/-- One signal source, for trace events. -/
inductive SourceId where
  | webglBasics | webglExtensions | webgpu | eme | math | audio | perfTiming
deriving DecidableEq

/-- Invocation events: a source is started / has completed. -/
inductive Ev where
  | start (s : SourceId) : Ev
  | fin (s : SourceId) : Ev
deriving DecidableEq

def Ev.isStart : Ev → Bool
  | .start _ => true
  | .fin _ => false

/-- "All sources are started together": every start event precedes every
completion event, i.e. the start events form a prefix of the trace. -/
def startedTogether (tr : List Ev) : Bool :=
  (tr.dropWhile Ev.isStart).all fun e => !(Ev.isStart e)

/-- The invocation order of `computeBrowserSignals` (lines 118-124): each
source runs to completion before the next one is invoked, because the two
asynchronous sources are individually awaited. -/
def fullTrace : List Ev :=
  [.start .webglBasics, .fin .webglBasics,       -- getWebGlBasics()        (line 118)
   .start .webglExtensions, .fin .webglExtensions, -- getWebGlExtensions()  (line 119)
   .start .webgpu, .fin .webgpu,                 -- await getWebGpuInfo()   (line 120)
   .start .eme, .fin .eme,                       -- await getEmeInfo()      (line 121)
   .start .math, .fin .math,                     -- getMathFingerprint()    (line 122)
   .start .audio, .fin .audio,                   -- getAudioFingerprint()   (line 123)
   .start .perfTiming, .fin .perfTiming]         -- getPerformanceTiming()  (line 124)

/-- The full host environment one collection round observes. -/
structure Host where
  navigator : Option NavInfo
  window : Option WindowInfo
  webglBasics : Sum Nat WebGlBasicsPayload
  webglExtensions : Sum Nat WebGlExtensionsPayload
  gpu : WebGpuHost
  eme : EmeHost
  mathResults : MathFingerprint
  audio : AudioField

/-- `getNavigatorSafe`: the `navigator` object, or `undefined` when it is
absent or the access throws. -/
def getNavigatorSafe (h : Host) : Option NavInfo := h.navigator

/-- `getMathFingerprint` (`sources/math.ts`): evaluates a fixed battery of
`Math.*` expressions; it cannot throw (missing `Math` functions fall back to
a constant-zero function), so it always yields a full record. -/
def getMathFingerprint (h : Host) : MathFingerprint := h.mathResults

/-- Modelled from the spec: `sources/audio.ts` is not under `src/`; the audio
source synchronously returns its (possibly lazy) field value. -/
def getAudioFingerprint (h : Host) : AudioField := h.audio

/-- `getPerformanceTiming` (`computeBrowserSignals.ts` lines 60-88):
`undefined` when `window.performance.now` is unavailable or the probe throws,
otherwise the measured `{precision, baseline}`. -/
def getPerformanceTiming (h : Host) : Option PerformanceTimingInfo :=
  match h.window with
  | none => none
  | some w => w.perfTiming

/-- `BrowserSignals` from `types.ts`: the fixed ten-key signal bag whose keys
(`userAgent`, `hardwareConcurrency`, `deviceMemory`, `webgl`,
`webgExtensions`, `audioFingerprint`, `mathFingerprint`, `webgpu`, `eme`,
`performanceTiming`) are always all present in the object literal built at
`computeBrowserSignals.ts` lines 145-156; `none` models a key whose value is
`undefined`. -/
structure BrowserSignals where
  userAgent : String
  hardwareConcurrency : Option JsNumber
  deviceMemory : Option JsNumber
  webgl : Option WebGlInfo
  webgExtensions : Option WebGlExtensionsPayload
  audioFingerprint : AudioField
  mathFingerprint : Option MathFingerprint
  webgpu : Option WebGpuInfo
  eme : Option EmeInfo
  performanceTiming : Option PerformanceTimingInfo
deriving DecidableEq

/-- `computeBrowserSignals`: invokes every source (sequentially — the two
async sources are each individually awaited before the next source starts)
and assembles the signal bag; the completed outcome also carries the
invocation trace. -/
def computeBrowserSignals (h : Host) : JsOutcome (List Ev × BrowserSignals) :=
  let nav := getNavigatorSafe h
  let basics := h.webglBasics                                  -- getWebGlBasics({cache:{}})
  let extensions := h.webglExtensions                          -- getWebGlExtensions({cache:{}})
  JsOutcome.bind (getWebGpuInfo h.gpu) fun webgpu =>           -- await getWebGpuInfo()
  JsOutcome.bind (getEmeInfo h.eme) fun eme =>                 -- await getEmeInfo()
  let mathFingerprint := getMathFingerprint h
  let audioFingerprint := getAudioFingerprint h
  let performanceTiming := getPerformanceTiming h
  let webgl : Option WebGlInfo :=
    match basics with
    | .inl _ => none                                           -- typeof basics === 'number'
    | .inr p => some {
        version := p.version,
        vendor := p.vendor,
        renderer := p.renderer,
        vendorUnmasked := p.vendorUnmasked,
        rendererUnmasked := p.rendererUnmasked,
        shadingLanguageVersion := p.shadingLanguageVersion,
        extensions := match extensions with
          | .inl _ => none
          | .inr e => e.extensions }
  let webgExtensions : Option WebGlExtensionsPayload :=
    match extensions with
    | .inl _ => none
    | .inr e => some e
  .ok (fullTrace, {
    userAgent := match nav with                                -- nav?.userAgent || ''
      | none => ""
      | some n => match n.userAgent with
        | none => ""
        | some ua => if ua = "" then "" else ua,
    hardwareConcurrency := match nav with
      | none => none
      | some n => n.hardwareConcurrency,
    deviceMemory := match nav with
      | none => none
      | some n => n.deviceMemory,
    webgl := webgl,
    webgExtensions := webgExtensions,
    audioFingerprint := audioFingerprint,
    mathFingerprint := some mathFingerprint,
    webgpu := some webgpu,
    eme := some eme,
    performanceTiming := performanceTiming })

/-! ### What a completed collection round contains -/

def outcomeTrace : JsOutcome (List Ev × BrowserSignals) → List Ev
  | .ok (tr, _) => tr
  | _ => []

def outcomeBag : JsOutcome (List Ev × BrowserSignals) → Option BrowserSignals
  | .ok (_, bag) => some bag
  | _ => none

/-- Inversion of a completed `computeBrowserSignals` run: both async sources
resolved, the trace is the sequential `fullTrace`, and every field of the bag
is determined by the host as in the object literal of lines 145-156. -/
theorem computeBrowserSignals_ok_inv {h : Host} {tr : List Ev} {bag : BrowserSignals}
    (hok : computeBrowserSignals h = .ok (tr, bag)) :
    ∃ w e, getWebGpuInfo h.gpu = .ok w ∧ getEmeInfo h.eme = .ok e ∧ tr = fullTrace ∧
      bag = {
        userAgent := match h.navigator with
          | none => ""
          | some n => match n.userAgent with
            | none => ""
            | some ua => if ua = "" then "" else ua,
        hardwareConcurrency := match h.navigator with
          | none => none
          | some n => n.hardwareConcurrency,
        deviceMemory := match h.navigator with
          | none => none
          | some n => n.deviceMemory,
        webgl := match h.webglBasics with
          | .inl _ => none
          | .inr p => some {
              version := p.version,
              vendor := p.vendor,
              renderer := p.renderer,
              vendorUnmasked := p.vendorUnmasked,
              rendererUnmasked := p.rendererUnmasked,
              shadingLanguageVersion := p.shadingLanguageVersion,
              extensions := match h.webglExtensions with
                | .inl _ => none
                | .inr x => x.extensions },
        webgExtensions := match h.webglExtensions with
          | .inl _ => none
          | .inr x => some x,
        audioFingerprint := h.audio,
        mathFingerprint := some h.mathResults,
        webgpu := some w,
        eme := some e,
        performanceTiming := getPerformanceTiming h } := by
  unfold computeBrowserSignals at hok
  match hgpu : getWebGpuInfo h.gpu with
  | .err =>
    rw [hgpu] at hok
    simp [JsOutcome.bind] at hok
  | .hang =>
    rw [hgpu] at hok
    simp [JsOutcome.bind] at hok
  | .ok w =>
    rw [hgpu] at hok
    simp only [JsOutcome.bind] at hok
    match heme : getEmeInfo h.eme with
    | .err =>
      rw [heme] at hok
      simp [JsOutcome.bind] at hok
    | .hang =>
      rw [heme] at hok
      simp [JsOutcome.bind] at hok
    | .ok e =>
      rw [heme] at hok
      simp only [JsOutcome.bind] at hok
      have hp := JsOutcome.ok.inj hok
      refine ⟨w, e, rfl, rfl, ?_, ?_⟩
      · exact (congrArg Prod.fst hp).symm
      · exact (congrArg Prod.snd hp).symm

/-- A host on which every probe succeeds. -/
def allOkHost : Host := {
  navigator := some ⟨some "ua", some "8", some "8"⟩,
  window := some ⟨some ⟨"0.001", "0.005"⟩⟩,
  webglBasics := .inr ⟨some "WebGL 1.0", some "Apple", some "Apple M1", some "Apple Inc.", some "Apple M1 GPU", some "1.0"⟩,
  webglExtensions := .inr ⟨some ["EXT_blend_minmax"]⟩,
  gpu := ⟨.ok true, .ok (.got (.ok ⟨false, some "apple", some "common-3", some "m1"⟩))⟩,
  eme := ⟨.ok false, .ok false, .ok true, .ok ()⟩,
  mathResults := [("acos", "1.4455870996659827"), ("exp", "2.718281828459045")],
  audio := .materialized "124.04344968475198" }

/-- A host on which every signal source fails / resolves to its "unknown"
value: no `navigator`, no `window`, numeric status codes from both WebGL
sources, throwing WebGPU and EME environments, an absent audio value. -/
def allFailHost : Host := {
  navigator := none,
  window := none,
  webglBasics := .inl 0,
  webglExtensions := .inl 0,
  gpu := ⟨.error (), .err⟩,
  eme := ⟨.error (), .error (), .error (), .err⟩,
  mathResults := [],
  audio := .undef }

/-- A host whose EME probe passes its gates but whose
`requestMediaKeySystemAccess` promise never settles. -/
def emeHangHost : Host := {
  navigator := some ⟨some "ua", some "8", some "8"⟩,
  window := none,
  webglBasics := .inl 0,
  webglExtensions := .inl 0,
  gpu := ⟨.ok false, .ok .nullAdapter⟩,
  eme := ⟨.ok false, .ok false, .ok true, .hang⟩,
  mathResults := [],
  audio := .undef }

/-- C8: no signal source raises or rejects past its own boundary: `getEmeInfo`
never rejects, resolves whenever its underlying request settles, and resolves
to `{}` whenever the EME access throws; `getWebGpuInfo` never rejects,
resolves whenever `requestAdapter` settles, and resolves to
`{supported: false}` whenever the GPU access throws. -/
theorem sources_never_raise :
    (∀ eh : EmeHost, getEmeInfo eh ≠ .err) ∧
    (∀ eh : EmeHost, eh.request ≠ .hang → ∃ r, getEmeInfo eh = .ok r) ∧
    (∀ eh : EmeHost, eh.requestFnAvailable = .error () → getEmeInfo eh = .ok ⟨none⟩) ∧
    (∀ gh : WebGpuHost, getWebGpuInfo gh ≠ .err) ∧
    (∀ gh : WebGpuHost, gh.adapter ≠ .hang → ∃ r, getWebGpuInfo gh = .ok r) ∧
    (∀ gh : WebGpuHost, gh.gpuAccess = .error () →
      getWebGpuInfo gh = .ok ⟨false, none, none, none, none⟩) := by
  refine ⟨?_, ?_, ?_, ?_, ?_, ?_⟩
  · intro eh
    rcases eh with ⟨pf, ic, fa, req⟩
    rcases pf with u | (_ | _) <;> rcases ic with u₂ | (_ | _) <;>
      rcases fa with u₃ | (_ | _) <;> rcases req with _ | _ | _ <;>
      exact fun hc => JsOutcome.noConfusion hc
  · intro eh hreq
    rcases eh with ⟨pf, ic, fa, req⟩
    rcases pf with u | (_ | _) <;> rcases ic with u₂ | (_ | _) <;>
      rcases fa with u₃ | (_ | _) <;> rcases req with _ | _ | _ <;>
      first
        | exact ⟨_, rfl⟩
        | exact absurd rfl hreq
  · intro eh hfa
    rcases eh with ⟨pf, ic, fa, req⟩
    have hfa' : fa = .error () := hfa
    subst hfa'
    rcases pf with u | (_ | _) <;> rcases ic with u₂ | (_ | _) <;> rfl
  · intro gh
    rcases gh with ⟨ga, ad⟩
    rcases ga with u | (_ | _) <;> rcases ad with (_ | (u₂ | _)) | _ | _ <;>
      exact fun hc => JsOutcome.noConfusion hc
  · intro gh had
    rcases gh with ⟨ga, ad⟩
    rcases ga with u | (_ | _) <;> rcases ad with (_ | (u₂ | _)) | _ | _ <;>
      first
        | exact ⟨_, rfl⟩
        | exact absurd rfl had
  · intro gh hga
    rcases gh with ⟨ga, ad⟩
    have hga' : ga = .error () := hga
    subst hga'
    rfl

/-- Witness for C8 at two fully-throwing hosts: both sources resolve (to
their documented unknown values). -/
theorem sources_never_raise_witness :
    (∃ r, getEmeInfo ⟨.error (), .error (), .error (), .err⟩ = .ok r) ∧
    (∃ r, getWebGpuInfo ⟨.error (), .err⟩ = .ok r) :=
  ⟨sources_never_raise.2.1 _ (by simp), sources_never_raise.2.2.2.2.1 _ (by simp)⟩

/-- C5 evidence (the code lacks the soft timeout the claim and eme.ts's own
doc comment describe): on a host whose `requestMediaKeySystemAccess` promise
never settles, `getEmeInfo` never settles, and because
`computeBrowserSignals` awaits it with no timeout wrapper, the whole
collection never completes — even though the WebGPU source had already
resolved. -/
theorem computeBrowserSignals_hangs_on_eme :
    getEmeInfo emeHangHost.eme = .hang ∧
    (getWebGpuInfo emeHangHost.gpu).isOk = true ∧
    computeBrowserSignals emeHangHost = .hang :=
  ⟨rfl, rfl, rfl⟩

/-- C4 as stated is false: a completed collection's invocation trace does not
start all sources together — the EME source starts only after the WebGPU
source has completed (and each source completes before the next one starts). -/
theorem computeBrowserSignals_not_started_together :
    (computeBrowserSignals allOkHost).isOk = true ∧
    outcomeTrace (computeBrowserSignals allOkHost) = fullTrace ∧
    startedTogether fullTrace = false :=
  ⟨rfl, rfl, by decide⟩

/-- C4 amended: `computeBrowserSignals` invokes the signal sources
sequentially in program order — webgl basics, webgl extensions, webgpu, eme,
math, audio, performance timing — awaiting each async source to completion
before the next source starts; when the collection completes, every source
has run to completion (in particular both async sources resolved). -/
theorem computeBrowserSignals_sequential :
    ∀ (h : Host) (tr : List Ev) (bag : BrowserSignals),
      computeBrowserSignals h = .ok (tr, bag) →
      tr = fullTrace ∧ startedTogether tr = false ∧
      (∃ w, getWebGpuInfo h.gpu = .ok w) ∧ (∃ e, getEmeInfo h.eme = .ok e) := by
  intro h tr bag hok
  obtain ⟨w, e, hw, he, htr, _⟩ := computeBrowserSignals_ok_inv hok
  subst htr
  exact ⟨rfl, by decide, ⟨w, hw⟩, ⟨e, he⟩⟩

/-- Witness for the amended C4 at the all-succeeding host. -/
theorem computeBrowserSignals_sequential_witness :
    startedTogether fullTrace = false :=
  (computeBrowserSignals_sequential allOkHost fullTrace
    ⟨"ua", some "8", some "8",
      some ⟨some "WebGL 1.0", some "Apple", some "Apple M1", some "Apple Inc.",
        some "Apple M1 GPU", some "1.0", some ["EXT_blend_minmax"]⟩,
      some ⟨some ["EXT_blend_minmax"]⟩,
      .materialized "124.04344968475198",
      some [("acos", "1.4455870996659827"), ("exp", "2.718281828459045")],
      some ⟨true, some false, some "apple", some "common-3", some "m1"⟩,
      some ⟨some true⟩,
      some ⟨"0.001", "0.005"⟩⟩
    rfl).2.1

/-- C6 as stated is false: on the all-failing host the failed WebGPU probe is
stored as the object `{supported: false}`, not as the `undefined` unknown
marker (the bag shown is the complete one the orchestrator returns there). -/
theorem webgpu_failure_not_undefined :
    outcomeBag (computeBrowserSignals allFailHost) =
      some ⟨"", none, none, none, none, .undef, some [],
        some ⟨false, none, none, none, none⟩, some ⟨none⟩, none⟩ ∧
    (some (⟨false, none, none, none, none⟩ : WebGpuInfo) ≠ (none : Option WebGpuInfo)) :=
  ⟨rfl, by simp⟩

/-- C6 amended: every completed signal bag carries all ten fixed keys (the
`BrowserSignals` object literal always lists them), and a failed probe
appears as its source's documented unknown value — `undefined` for
`hardwareConcurrency`, `deviceMemory`, `webgl`, `webgExtensions`,
`audioFingerprint` and `performanceTiming`, the empty string for `userAgent`,
`{}` for `eme`, `{supported: false}` for `webgpu` — never as an error
value. -/
theorem computeBrowserSignals_failed_probes_unknown :
    ∀ (h : Host) (tr : List Ev) (bag : BrowserSignals),
      computeBrowserSignals h = .ok (tr, bag) →
      (h.navigator = none →
        bag.userAgent = "" ∧ bag.hardwareConcurrency = none ∧ bag.deviceMemory = none) ∧
      (∀ c, h.webglBasics = .inl c → bag.webgl = none) ∧
      (∀ c, h.webglExtensions = .inl c → bag.webgExtensions = none) ∧
      (h.window = none → bag.performanceTiming = none) ∧
      (h.audio = .undef → bag.audioFingerprint = .undef) ∧
      (getWebGpuInfo h.gpu = .ok ⟨false, none, none, none, none⟩ →
        bag.webgpu = some ⟨false, none, none, none, none⟩) ∧
      (getEmeInfo h.eme = .ok ⟨none⟩ → bag.eme = some ⟨none⟩) ∧
      bag.mathFingerprint = some (getMathFingerprint h) := by
  intro h tr bag hok
  obtain ⟨w, e, hw, he, _, hbag⟩ := computeBrowserSignals_ok_inv hok
  subst hbag
  refine ⟨?_, ?_, ?_, ?_, ?_, ?_, ?_, ?_⟩
  · intro hnav
    simp [hnav]
  · intro c hc
    simp [hc]
  · intro c hc
    simp [hc]
  · intro hwin
    simp [getPerformanceTiming, hwin]
  · intro haud
    simp [haud]
  · intro hgw
    rw [hw] at hgw
    rw [(JsOutcome.ok.inj hgw)]
  · intro hge
    rw [he] at hge
    rw [(JsOutcome.ok.inj hge)]
  · rfl

/-- Witness for the amended C6 at the all-failing host. -/
theorem computeBrowserSignals_failed_probes_unknown_witness :
    (⟨"", none, none, none, none, .undef, some [],
      some ⟨false, none, none, none, none⟩, some ⟨none⟩, none⟩ : BrowserSignals).webgl = none ∧
    (⟨"", none, none, none, none, .undef, some [],
      some ⟨false, none, none, none, none⟩, some ⟨none⟩, none⟩ : BrowserSignals).eme =
      some ⟨none⟩ :=
  have h := computeBrowserSignals_failed_probes_unknown allFailHost fullTrace
    ⟨"", none, none, none, none, .undef, some [],
      some ⟨false, none, none, none, none⟩, some ⟨none⟩, none⟩ rfl
  ⟨h.2.1 0 rfl, h.2.2.2.2.2.2.1 rfl⟩

/-- C10 as stated is false in its contrast clause: not every other failed
signal degrades to `undefined` — the failed EME probe degrades to the object
`{}`. -/
theorem eme_failure_not_undefined :
    (outcomeBag (computeBrowserSignals allFailHost)).map BrowserSignals.eme =
      some (some ⟨none⟩) ∧
    (some (⟨none⟩ : EmeInfo) ≠ (none : Option EmeInfo)) :=
  ⟨rfl, by simp⟩

/-- C10 amended: the `userAgent` field of every completed bag is always a
string and never the `undefined` marker — when `navigator` is unavailable, or
its `userAgent` is absent or empty, the field degrades to `""` — unlike the
other navigator-derived and probe-payload signals (`hardwareConcurrency`,
`deviceMemory`), which degrade to `undefined`; the `webgpu` and `eme` fields
are never `undefined` either, degrading instead to their object-shaped
unknown values. -/
theorem computeBrowserSignals_userAgent_string :
    ∀ (h : Host) (tr : List Ev) (bag : BrowserSignals),
      computeBrowserSignals h = .ok (tr, bag) →
      (h.navigator = none → bag.userAgent = "") ∧
      (∀ n, h.navigator = some n →
        bag.userAgent = (match n.userAgent with
          | none => ""
          | some ua => if ua = "" then "" else ua)) ∧
      (h.navigator = none → bag.hardwareConcurrency = none ∧ bag.deviceMemory = none) ∧
      bag.webgpu ≠ none ∧ bag.eme ≠ none := by
  intro h tr bag hok
  obtain ⟨w, e, _, _, _, hbag⟩ := computeBrowserSignals_ok_inv hok
  subst hbag
  refine ⟨?_, ?_, ?_, by simp, by simp⟩
  · intro hnav
    simp [hnav]
  · intro n hn
    simp [hn]
  · intro hnav
    simp [hnav]

/-- Witness for the amended C10 at the all-failing host. -/
theorem computeBrowserSignals_userAgent_string_witness :
    (⟨"", none, none, none, none, .undef, some [],
      some ⟨false, none, none, none, none⟩, some ⟨none⟩, none⟩ : BrowserSignals).userAgent =
      "" :=
  (computeBrowserSignals_userAgent_string allFailHost fullTrace
    ⟨"", none, none, none, none, .undef, some [],
      some ⟨false, none, none, none, none⟩, some ⟨none⟩, none⟩ rfl).1 rfl

/-! ### Anchor and visitorId (spec-modelled: `anchor.ts` is not under `src/`)
and the Agent (src `agent.ts`) -/

/-- Modelled from the spec: `anchor.ts` (the Anchor Builder) is not under
`src/`; only its caller `agent.ts` and the re-export in `index.ts` are.  Per
spec §4.3 the anchor is a fixed key set: normalized GPU identity strings,
reported hardware concurrency and memory, the math-quirk fingerprint, DRM
capability, and the timer-precision class; per §4.4 it also carries the
resolved audio value.  Every value is a stable primitive or absent — no lazy
values. -/
structure AnchorPayload where
  gpuVendor : Option String
  gpuRenderer : Option String
  hardwareConcurrency : Option JsNumber
  deviceMemory : Option JsNumber
  mathFingerprint : Option MathFingerprint
  widevineSupported : Option Bool
  timerPrecision : Option JsNumber
  audio : Option JsNumber
deriving DecidableEq

/-- Modelled from the spec (§4.4): the Anchor Builder, on encountering a
function value, invokes it and awaits the result, substituting "unknown" if
the resulting promise rejects; a materialized number is used as-is. -/
def resolveAudioField : AudioField → Option JsNumber
  | .materialized x => some x
  | .thunk (.ok x) => some x
  | .thunk (.error _) => none
  | .undef => none

/-- Modelled from the spec: `computeAnchor`, a pure function of the signal
bag (spec §4.3): selects the fixed stable subset, normalizes the GPU identity
strings with `normalizeString`, and resolves the lazy audio field. -/
def computeAnchor (s : BrowserSignals) : AnchorPayload := {
  gpuVendor := normalizeString (s.webgl.bind WebGlInfo.vendor),
  gpuRenderer := normalizeString (s.webgl.bind WebGlInfo.renderer),
  hardwareConcurrency := s.hardwareConcurrency,
  deviceMemory := s.deviceMemory,
  mathFingerprint := s.mathFingerprint,
  widevineSupported := s.eme.bind EmeInfo.widevineSupported,
  timerPrecision := s.performanceTiming.map PerformanceTimingInfo.precision,
  audio := resolveAudioField s.audioFingerprint }

/-- One optional anchor entry: `JSON.stringify` drops keys whose value is
`undefined`. -/
def optEntry (k : String) (v : Option JsonValue) : List (String × JsonValue) :=
  match v with
  | some j => [(k, j)]
  | none => []

/-- The anchor payload as the JS object handed to `stableHash`. -/
def anchorToJson (a : AnchorPayload) : JsonValue :=
  .obj (optEntry "gpuVendor" (a.gpuVendor.map .str) ++
    optEntry "gpuRenderer" (a.gpuRenderer.map .str) ++
    optEntry "hardwareConcurrency" (a.hardwareConcurrency.map .num) ++
    optEntry "deviceMemory" (a.deviceMemory.map .num) ++
    optEntry "mathFingerprint" (a.mathFingerprint.map fun mf =>
      .obj (mf.map fun p => (p.1, .num p.2))) ++
    optEntry "widevineSupported" (a.widevineSupported.map .bool) ++
    optEntry "timerPrecision" (a.timerPrecision.map .num) ++
    optEntry "audio" (a.audio.map .num))

/-- Modelled from the spec: `computeVisitorId` (re-exported by `index.ts`,
called at `agent.ts` line 133) builds the anchor from the signal bag and
derives the identifier by hashing it: `{anchor, visitorId}`. -/
def computeVisitorId (signals : BrowserSignals) : AnchorPayload × String :=
  let anchor := computeAnchor signals
  (anchor, stableHash (anchorToJson anchor))

/-- `version` from `package.json` (CHANGELOG: 0.1.0). -/
def libraryVersion : String := "0.1.0"

/-- The Agent state built by `makeAgent`: the one shared signals promise of
the collection round started by `load`, plus the agent-level debug flag. -/
structure Agent where
  signalsPromise : JsOutcome (List Ev × BrowserSignals)
  debug : Bool

/-- `GetResult` from `agent.ts`. -/
structure GetResult where
  visitorId : String
  anchor : AnchorPayload
  signals : BrowserSignals
  version : String
deriving DecidableEq

/-- `makeAgent` from `agent.ts`. -/
def makeAgent (signalsPromise : JsOutcome (List Ev × BrowserSignals)) (debug : Bool) : Agent :=
  ⟨signalsPromise, debug⟩

/-- `Agent.get`: awaits the shared signals promise, computes the anchor and
visitorId from it, and returns the bundle.  The `debug || options?.debug`
branch only prints a console dump and has no effect on the returned value, so
the per-call debug option is unused here. -/
def Agent.get (a : Agent) (_optionsDebug : Bool) : JsOutcome GetResult :=
  JsOutcome.bind a.signalsPromise fun pr =>
    let signals := pr.2
    let p := computeVisitorId signals
    .ok ⟨p.2, p.1, signals, libraryVersion⟩

/-- `load` from `agent.ts`: starts exactly one collection round and hands the
in-flight promise to `makeAgent`. -/
def load (h : Host) (debug : Bool) : Agent :=
  makeAgent (computeBrowserSignals h) debug

/-- C2: two `get()` calls on the same Agent produce identical outcomes —
identical `signals` object contents and equal `visitorId` strings — whatever
the per-call debug options: the single collection round started by `load` is
the shared memoized `signalsPromise`, the host is never re-probed, and
`computeVisitorId` is a pure function of the shared bag. -/
theorem agent_get_memoized :
    ∀ (h : Host) (d o₁ o₂ : Bool),
      (load h d).get o₁ = (load h d).get o₂ ∧
      (∀ r₁ r₂, (load h d).get o₁ = .ok r₁ → (load h d).get o₂ = .ok r₂ →
        r₁.signals = r₂.signals ∧ r₁.visitorId = r₂.visitorId) := by
  intro h d o₁ o₂
  refine ⟨rfl, ?_⟩
  intro r₁ r₂ h₁ h₂
  have h₃ : JsOutcome.ok (α := GetResult) r₁ = .ok r₂ := by rw [← h₁]; exact h₂
  rw [JsOutcome.ok.inj h₃]
  exact ⟨rfl, rfl⟩

def getVisitorId : JsOutcome GetResult → Option String
  | .ok r => some r.visitorId
  | _ => none

/-- C3: every value `stableHash` can return is a 16-character lowercase hex
string, and on the host where every signal source resolves to its "unknown"
value, `Agent.get` still resolves — with a visitorId of that shape — rather
than rejecting. -/
theorem get_total_failure_tolerant :
    (∀ v : JsonValue, isHex16 (stableHash v) = true) ∧
    ((load allFailHost false).get false).isOk = true ∧
    (getVisitorId ((load allFailHost false).get false)).map isHex16 = some true := by
  refine ⟨isHex16_stableHash, rfl, ?_⟩
  show (some (stableHash (anchorToJson (computeAnchor _)))).map isHex16 = some true
  rw [Option.map_some']
  rw [isHex16_stableHash]

/-- C7: a signal bag whose audio field is a lazy thunk yields the same anchor
and the same visitorId as the bag in which that field is the thunk's resolved
value; when the thunk's promise rejects, the "unknown" value is substituted
for the anchor's audio field. -/
theorem lazy_audio_resolution :
    ∀ (s : BrowserSignals) (x : JsNumber),
      computeAnchor { s with audioFingerprint := .thunk (.ok x) } =
        computeAnchor { s with audioFingerprint := .materialized x } ∧
      computeVisitorId { s with audioFingerprint := .thunk (.ok x) } =
        computeVisitorId { s with audioFingerprint := .materialized x } ∧
      (computeAnchor { s with audioFingerprint := .thunk (.error ()) }).audio = none := by
  intro s x
  exact ⟨rfl, rfl, rfl⟩

/-- Witness for C2 at the all-failing host: both `get()` calls return the
same completed result, with the concrete identifier `7764e3bbe23b33c0`. -/
theorem agent_get_memoized_witness :
    (load allFailHost false).get true = (load allFailHost false).get false ∧
    ("7764e3bbe23b33c0" : String) = "7764e3bbe23b33c0" := by
  have h := agent_get_memoized allFailHost false true false
  refine ⟨h.1, ?_⟩
  exact (h.2
    ⟨"7764e3bbe23b33c0", ⟨none, none, none, none, some [], none, none, none⟩,
      ⟨"", none, none, none, none, .undef, some [],
        some ⟨false, none, none, none, none⟩, some ⟨none⟩, none⟩, libraryVersion⟩
    ⟨"7764e3bbe23b33c0", ⟨none, none, none, none, some [], none, none, none⟩,
      ⟨"", none, none, none, none, .undef, some [],
        some ⟨false, none, none, none, none⟩, some ⟨none⟩, none⟩, libraryVersion⟩
    (by decide) (by decide)).2
